import Mathlib

/-!
Verification of the FIFO two-level rate limiter (`rate_limiter.py`).

The development shallowly embeds the `RateLimiter` class: wall-clock time is
modelled as a rational number supplied by an environment oracle, the Python
`deque[float]` windows become `List ℚ` (front = oldest), the
`dict[str, deque[float]]` of per-tool windows becomes an insertion-ordered
association list, and the FIFO wait queue of `(threading.Event, tool_name)`
pairs becomes a list of `Waiter` records carrying the event's set/cleared
flag.  Each iteration of the wait loop of `acquire` is modelled as executing
at a single instant `env.t i`; exceptions are values of `PyError`, and the
fact that Python's `except Exception:` does not catch `BaseException`-derived
interrupts (`KeyboardInterrupt`, `SystemExit`) is modelled by the `interrupt`
error bypassing the cleanup handler.
-/

deriving instance DecidableEq for Except

/-- One entry of the `tools` mapping of `rate_limits.json`: an object with an
optional `max_requests_per_second` override. -/
structure ToolConfig where
  max_requests_per_second : Option ℚ
deriving DecidableEq, Repr

/-- The configuration dictionary held in `self.config`.  Every field is
optional because `json.load` returns whatever keys the file happens to have;
`none` models an absent key (`dict.get` default / `KeyError` on `[...]`). -/
structure Config where
  max_requests_per_second : Option ℚ
  max_wait_seconds : Option ℚ
  tools : Option (List (String × ToolConfig))
deriving DecidableEq, Repr

/-- Python exceptions that the limiter code can raise or observe.
`interrupt` stands for a `BaseException`-derived exception delivered from
outside (e.g. `KeyboardInterrupt` or `SystemExit`): such an exception is NOT
caught by an `except Exception:` handler. -/
inductive PyError where
  | keyError (key : String)
  | indexError
  | rateLimitTimeout (toolName : String) (maxWait : ℚ)
  | interrupt
deriving DecidableEq, Repr

/-- A queue entry: one in-flight `acquire` call, holding the identity of its
`threading.Event`, the event's set/cleared flag, and the tool name
(`self._queue` holds `(event, tool_name)` tuples). -/
structure Waiter where
  id : ℕ
  eventSet : Bool
  toolName : String
deriving DecidableEq, Repr

/-- The mutable state owned by a `RateLimiter` instance:
`self._global_timestamps`, `self._tool_timestamps` and `self._queue`. -/
structure LimiterState where
  global_timestamps : List ℚ
  tool_timestamps : List (String × List ℚ)
  queue : List Waiter
deriving DecidableEq, Repr

/-- The record returned by `get_status`. -/
structure StatusRecord where
  global_calls_last_second : ℕ
  global_limit : ℚ
  queue_depth : ℕ
  tool_calls : List (String × ℕ)
deriving DecidableEq, Repr

/-- Ordered-dictionary lookup (`d[k]` / `k in d`) on an association list. -/
def lookupKV {α : Type} (d : List (String × α)) (k : String) : Option α :=
  match d with
  | [] => none
  | (a, v) :: rest => if a = k then some v else lookupKV rest k

/-- Ordered-dictionary store `d[k] = v`: replaces the binding in place when
the key is present, otherwise appends it (Python dicts keep insertion
order). -/
def dictSet {α : Type} (d : List (String × α)) (k : String) (v : α) :
    List (String × α) :=
  match d with
  | [] => [(k, v)]
  | (a, w) :: rest => if a = k then (k, v) :: rest else (a, w) :: dictSet rest k v

/-- View of a per-tool window with the empty deque as default, matching the
pattern `if tool not in d: d[tool] = deque()` followed by reads. -/
def dictGetD (d : List (String × List ℚ)) (k : String) : List ℚ :=
  (lookupKV d k).getD []

/-- Model of `_load_config`: the external source is `none` when the file is
missing (then the built-in defaults are returned), and otherwise carries the
outcome of `json.load` — which `_load_config` does not guard, so a parse
error propagates out of the constructor, and a partial mapping is returned
as-is without merging defaults. -/
def loadConfig (source : Option (Except String Config)) : Except String Config :=
  match source with
  | none =>
      .ok { max_requests_per_second := some 10
            max_wait_seconds := some 120
            tools := some [] }
  | some (.error e) => .error e
  | some (.ok c) => .ok c

/-- Model of `_get_tool_limit`.  Python evaluates the default argument of
`tools[tool_name].get("max_requests_per_second", self.config["max_requests_per_second"])`
eagerly, so the global key is read (and can raise `KeyError`) even when the
per-tool override is present. -/
def getToolLimit (config : Config) (toolName : String) : Except PyError ℚ :=
  let tools := config.tools.getD []
  match lookupKV tools toolName with
  | some tc =>
      match config.max_requests_per_second with
      | none => .error (.keyError "max_requests_per_second")
      | some g => .ok (tc.max_requests_per_second.getD g)
  | none =>
      match config.max_requests_per_second with
      | none => .error (.keyError "max_requests_per_second")
      | some g => .ok g

/-- Model of `_clean_old_timestamps` at wall-clock time `now`: pop entries
from the front while they are strictly older than `now - window`, with the
window fixed at its default of `1.0` second (the code never passes another
value). -/
def cleanOldTimestamps (timestamps : List ℚ) (now : ℚ) : List ℚ :=
  timestamps.dropWhile (fun t => decide (t < now - 1))

/-- Model of `_calculate_wait_time` at wall-clock time `now`.  Returns the
computed wait together with the mutated state (the function prunes the global
window and the tool's window in place, creating the tool's deque when
absent).  `KeyError` is raised by `self.config["max_requests_per_second"]`
before any mutation; `IndexError` models `deque[0]` on an empty deque, which
is reachable when a limit is `≤ 0`. -/
def calculateWaitTime (config : Config) (toolName : String) (now : ℚ)
    (s : LimiterState) : Except PyError ℚ × LimiterState :=
  match config.max_requests_per_second with
  | none => (.error (.keyError "max_requests_per_second"), s)
  | some global_limit =>
    match getToolLimit config toolName with
    | .error e => (.error e, s)
    | .ok tool_limit =>
      let g := cleanOldTimestamps s.global_timestamps now
      let s1 := { s with global_timestamps := g }
      if global_limit ≤ (g.length : ℚ) then
        match g with
        | [] => (.error .indexError, s1)
        | oldest :: _ => calcToolPart toolName now tool_limit [oldest + 1 - now] s1
      else
        calcToolPart toolName now tool_limit [] s1
where
  /-- The tool-specific half of `_calculate_wait_time` (lines 103–111),
  taking the wait entries already collected for the global limit. -/
  calcToolPart (toolName : String) (now tool_limit : ℚ) (waitTimesG : List ℚ)
      (s1 : LimiterState) : Except PyError ℚ × LimiterState :=
    let tts := cleanOldTimestamps (dictGetD s1.tool_timestamps toolName) now
    let s2 := { s1 with tool_timestamps := dictSet s1.tool_timestamps toolName tts }
    if tool_limit ≤ (tts.length : ℚ) then
      match tts with
      | [] => (.error .indexError, s2)
      | oldest :: _ =>
          let wait_times := waitTimesG ++ [oldest + 1 - now]
          (.ok (match wait_times with
                | [] => 0
                | w :: ws => ws.foldl max w), s2)
    else
      (.ok (match waitTimesG with
            | [] => 0
            | w :: ws => ws.foldl max w), s2)

/-- Model of `_record_call` at wall-clock time `now`: append the timestamp to
the global window and to the tool's window (creating the deque when
absent). -/
def recordCall (toolName : String) (now : ℚ) (s : LimiterState) : LimiterState :=
  { s with
    global_timestamps := s.global_timestamps ++ [now]
    tool_timestamps :=
      dictSet s.tool_timestamps toolName (dictGetD s.tool_timestamps toolName ++ [now]) }

/-- Model of `_notify_next`: set the event of the waiter at the front of the
queue, when one exists. -/
def notifyNext (q : List Waiter) : List Waiter :=
  match q with
  | [] => []
  | w :: ws => { w with eventSet := true } :: ws

/-- Set the flag of the event owned by waiter `myId` (`my_event.set()`). -/
def setEvent (q : List Waiter) (myId : ℕ) : List Waiter :=
  q.map fun w => if w.id = myId then { w with eventSet := true } else w

/-- Clear the flag of the event owned by waiter `myId` (`my_event.clear()`). -/
def clearEvent (q : List Waiter) (myId : ℕ) : List Waiter :=
  q.map fun w => if w.id = myId then { w with eventSet := false } else w

/-- Lines 141–146 of `acquire`: append a fresh waiter (event initially
cleared) to the tail of the queue and set its event when it is the only
entry. -/
def joinQueue (q : List Waiter) (myId : ℕ) (toolName : String) : List Waiter :=
  let q1 := q ++ [{ id := myId, eventSet := false, toolName := toolName }]
  if q1.length = 1 then setEvent q1 myId else q1

/-- Lines 190–197 of `acquire`: the `except Exception:` cleanup — rebuild the
queue without this waiter's entry, then notify the new head. -/
def cleanupRemove (myId : ℕ) (s : LimiterState) : LimiterState :=
  { s with queue := notifyNext (s.queue.filter fun w => decide (w.id ≠ myId)) }

/-- The environment one run of `acquire` observes: `t i` is the wall-clock
time during loop iteration `i` (each iteration is modelled as executing at a
single instant), and `interrupt i` tells whether a `BaseException`-derived
interrupt (e.g. `KeyboardInterrupt`) is delivered while the waiter blocks in
`my_event.wait` during iteration `i`. -/
structure AcquireEnv where
  t : ℕ → ℚ
  interrupt : ℕ → Bool

/-- One iteration of the `while True` loop of `acquire` (lines 149–188),
executed at the instant `env.t i`.  `.inl (r, s2)` means the loop exits with
outcome `r` in state `s2`; `.inr s2` means it falls through to the next
iteration (`continue` at line 165 or the sleep at line 188).  The timeout
raise and the errors escaping `_calculate_wait_time` pass through the
`except Exception:` handler of lines 190–197 (cleanup, then re-raise); an
`interrupt` delivered during `my_event.wait` is `BaseException`-derived, so
the handler does not run and the queue entry is left in place. -/
def acquireIter (config : Config) (toolName : String) (myId : ℕ)
    (maxWait start : ℚ) (env : AcquireEnv) (i : ℕ) (s : LimiterState) :
    (Except PyError Unit × LimiterState) ⊕ LimiterState :=
  if maxWait - (env.t i - start) ≤ 0 then
    .inl (.error (.rateLimitTimeout toolName maxWait), cleanupRemove myId s)
  else if env.interrupt i then
    .inl (.error .interrupt, s)
  else
    match s.queue with
    | [] => .inr { s with queue := clearEvent s.queue myId }
    | w :: _ =>
      if w.id = myId then
        match calculateWaitTime config toolName (env.t i) s with
        | (.error e, s2) => .inl (.error e, cleanupRemove myId s2)
        | (.ok waitTime, s2) =>
          if waitTime ≤ 0 then
            .inl (.ok (), { recordCall toolName (env.t i) s2 with
              queue := notifyNext ((recordCall toolName (env.t i) s2).queue.drop 1) })
          else if maxWait - (env.t i - start) ≤ 0 then
            .inl (.error (.rateLimitTimeout toolName maxWait), cleanupRemove myId s2)
          else
            .inr s2
      else
        .inr { s with queue := clearEvent s.queue myId }

/-- The `while True` loop of `acquire` (lines 148–197): iterate
`acquireIter`, driven by `fuel` remaining iterations; `(none, s)` means the
loop is still running when the fuel runs out. -/
def acquireLoop (config : Config) (toolName : String) (myId : ℕ)
    (maxWait start : ℚ) (env : AcquireEnv) :
    ℕ → ℕ → LimiterState → Option (Except PyError Unit) × LimiterState
  | 0, _, s => (none, s)
  | fuel + 1, i, s =>
    match acquireIter config toolName myId maxWait start env i s with
    | .inl (r, s2) => (some r, s2)
    | .inr s2 => acquireLoop config toolName myId maxWait start env fuel (i + 1) s2

/-- Model of `acquire`: read `max_wait_seconds` with default `120`, record
the start time, join the queue, and enter the wait loop (whose iterations
are numbered from 1; `env.t 0` is the `start_time` read). -/
def acquire (config : Config) (toolName : String) (myId : ℕ) (env : AcquireEnv)
    (fuel : ℕ) (s : LimiterState) : Option (Except PyError Unit) × LimiterState :=
  let maxWait := config.max_wait_seconds.getD 120
  let start := env.t 0
  acquireLoop config toolName myId maxWait start env fuel 1
    { s with queue := joinQueue s.queue myId toolName }

/-- Model of `get_status` at wall-clock time `now`: prune the global window
in place, then build the status dictionary.  `self.config["max_requests_per_second"]`
can raise `KeyError`; the per-tool counts are taken from the raw deques
without pruning (`{tool: len(ts) ... if ts}`). -/
def getStatus (config : Config) (now : ℚ) (s : LimiterState) :
    Except PyError StatusRecord × LimiterState :=
  let g := cleanOldTimestamps s.global_timestamps now
  let s1 := { s with global_timestamps := g }
  match config.max_requests_per_second with
  | none => (.error (.keyError "max_requests_per_second"), s1)
  | some lim =>
      (.ok { global_calls_last_second := g.length
             global_limit := lim
             queue_depth := s1.queue.length
             tool_calls :=
               (s1.tool_timestamps.filter fun p => !p.2.isEmpty).map
                 fun p => (p.1, p.2.length) }, s1)

/-- Global state of the concurrent system: the limiter state plus a ghost
arrival counter; waiter ids are issued from the counter in arrival order, so
`id` order is arrival order. -/
structure GState where
  lim : LimiterState
  arrivals : ℕ
deriving DecidableEq, Repr

/-- Labels of the atomic queue/counter transitions that concurrent `acquire`
calls perform. -/
inductive QLabel where
  | enqueueL (id : ℕ) (tool : String)
  | grantL (id : ℕ) (tool : String) (now : ℚ)
  | abortL (id : ℕ)
  | clearL (id : ℕ)
deriving DecidableEq, Repr

/-- Small-step semantics of the limiter under concurrent `acquire` calls.
Each constructor is one critical section of `acquire`:

* `enqueueL` — lines 141–146: a fresh waiter (the next arrival index) joins
  the tail of the queue.
* `grantL` — lines 162–176: a waiter that has verified it owns the head
  entry computes the wait time, finds it `≤ 0`, records the call, pops
  itself and notifies the new head.  The head cannot change between the
  check at line 163 and the `popleft` at line 174 because appends only touch
  the tail and a waiter is only ever removed by its own thread, so the
  admission step legitimately requires the acting waiter to be the head.
* `abortL` — lines 190–197: a queued waiter hits an exception and excises
  itself, notifying the new head.
* `clearL` — line 164: a non-head waiter clears its own event. -/
inductive QStep (config : Config) : GState → QLabel → GState → Prop
  | enqueueL (tool : String) (s : GState) :
      QStep config s (.enqueueL s.arrivals tool)
        ⟨{ s.lim with queue := joinQueue s.lim.queue s.arrivals tool }, s.arrivals + 1⟩
  | grantL (s : GState) (w : Waiter) (rest : List Waiter) (now wt : ℚ)
      (s2 : LimiterState)
      (hhead : s.lim.queue = w :: rest)
      (hcalc : calculateWaitTime config w.toolName now s.lim = (.ok wt, s2))
      (hwt : wt ≤ 0) :
      QStep config s (.grantL w.id w.toolName now)
        ⟨{ recordCall w.toolName now s2 with
            queue := notifyNext ((recordCall w.toolName now s2).queue.drop 1) },
          s.arrivals⟩
  | abortL (s : GState) (wid : ℕ) :
      QStep config s (.abortL wid) ⟨cleanupRemove wid s.lim, s.arrivals⟩
  | clearL (s : GState) (wid : ℕ) :
      QStep config s (.clearL wid)
        ⟨{ s.lim with queue := clearEvent s.lim.queue wid }, s.arrivals⟩

/-- The initial state of a freshly constructed limiter: empty windows, empty
queue, no arrivals yet. -/
def gInit : GState := ⟨⟨[], [], []⟩, 0⟩

/-- Reachability of global states by any interleaving of steps. -/
def QReach (config : Config) : GState → GState → Prop :=
  Relation.ReflTransGen (fun a b => ∃ l, QStep config a l b)

/-- Configuration with a global limit of 1 request/second. -/
def cfgOne : Config := ⟨some 1, some 120, some []⟩

/-- Configuration with a global limit of 10 requests/second (the default). -/
def cfgTen : Config := ⟨some 10, some 120, some []⟩

/-- Configuration whose `max_wait_seconds` is 0, so the very first timeout
check fires. -/
def cfgZeroWait : Config := ⟨some 10, some 0, some []⟩

/-- Environment in which every clock read returns `c` and no interrupt is
ever delivered. -/
def envAt (c : ℚ) : AcquireEnv := ⟨fun _ => c, fun _ => false⟩

/-- Environment delivering a `BaseException`-derived interrupt (e.g.
`KeyboardInterrupt`) during the first `my_event.wait`. -/
def envInterrupted : AcquireEnv := ⟨fun _ => 0, fun _ => true⟩

/-- State holding one tool window whose only entry is 5 seconds stale. -/
def stateStale : LimiterState := ⟨[], [("x", [0])], []⟩

/-- State with a sorted global window, an empty tool deque and one queued
waiter, used to instantiate `getStatus_fields`. -/
def stateSortedW : LimiterState := ⟨[0, 3], [("y", [])], [⟨4, false, "y"⟩]⟩

/-- Configuration with one tool override present and one tool entry without
the override field. -/
def cfgOverrides : Config :=
  ⟨some 10, none, some [("a", ⟨some 3⟩), ("b", ⟨none⟩)]⟩

/-- Queue well-formation: waiter ids appear in strictly increasing order
(the queue is sorted by arrival) and all of them were issued before the
current arrival counter. -/
def queueIdsOrdered (s : GState) : Prop :=
  List.Pairwise (· < ·) (s.lim.queue.map Waiter.id) ∧
    ∀ n ∈ s.lim.queue.map Waiter.id, n < s.arrivals

/-- How one critical section may change the two window families: each window
is either untouched or pruned at the current instant, and windows of other
tools are untouched. -/
def windowsPrunedAt (toolName : String) (now : ℚ) (s s2 : LimiterState) : Prop :=
  (s2.global_timestamps = s.global_timestamps ∨
    s2.global_timestamps = cleanOldTimestamps s.global_timestamps now) ∧
  (∀ n, n ≠ toolName → lookupKV s2.tool_timestamps n = lookupKV s.tool_timestamps n) ∧
  (dictGetD s2.tool_timestamps toolName = dictGetD s.tool_timestamps toolName ∨
    dictGetD s2.tool_timestamps toolName =
      cleanOldTimestamps (dictGetD s.tool_timestamps toolName) now)

/-- Environment whose clock advances by one second per loop iteration, with
no interrupts. -/
def envLin : AcquireEnv := ⟨fun i => (i : ℚ), fun _ => false⟩

/-- Environment with a constant clock and an interrupt delivered during the
second loop iteration. -/
def envIntAt2 : AcquireEnv := ⟨fun _ => 3 / 2, fun i => i == 2⟩

/-- Configuration whose file exists but lacks `max_requests_per_second`. -/
def cfgNoRate : Config := ⟨none, some 120, some []⟩

/-- The window `l` holds strictly fewer than `K` entries that are strictly
younger than one second before the instant `now + δ` — the state in which
the trailing-1-second budget `K` has room again once boundary entries are
treated as expired (the admission check accepts a wait of exactly 0). -/
def belowCap (l : List ℚ) (K now δ : ℚ) : Prop :=
  ((l.filter fun t => decide (now + δ - 1 < t)).length : ℚ) < K

lemma dropWhile_dropWhile_of_imp {α : Type} (p q : α → Bool)
    (h : ∀ a, p a = true → q a = true) (l : List α) :
    (l.dropWhile p).dropWhile q = l.dropWhile q := by
  induction l with
  | nil => rfl
  | cons a tl ih =>
      by_cases hp : p a = true
      · rw [List.dropWhile_cons_of_pos hp, ih, List.dropWhile_cons_of_pos (h a hp)]
      · rw [List.dropWhile_cons_of_neg hp]

/-- Pruning at a later instant subsumes an earlier pruning: cleaning a window
that was already cleaned at time `c ≤ T` gives the same result as cleaning
the original window at `T`. -/
lemma cleanOld_cleanOld (l : List ℚ) (c T : ℚ) (h : c ≤ T) :
    cleanOldTimestamps (cleanOldTimestamps l c) T = cleanOldTimestamps l T := by
  unfold cleanOldTimestamps
  refine dropWhile_dropWhile_of_imp _ _ (fun a ha => ?_) l
  simp only [decide_eq_true_eq] at ha ⊢
  linarith

/-- On a sorted window, popping old entries from the front is the same as
filtering out everything older than the cutoff. -/
lemma cleanOld_eq_filter (l : List ℚ) (now : ℚ) (hs : l.Sorted (· ≤ ·)) :
    cleanOldTimestamps l now = l.filter fun t => decide (now - 1 ≤ t) := by
  induction l with
  | nil => rfl
  | cons a tl ih =>
      rcases List.sorted_cons.mp hs with ⟨ha, htl⟩
      by_cases hcut : a < now - 1
      · rw [cleanOldTimestamps, List.dropWhile_cons_of_pos (by simpa using hcut),
          ← cleanOldTimestamps, ih htl, List.filter_cons_of_neg (by simpa using not_le.mpr hcut)]
      · rw [cleanOldTimestamps, List.dropWhile_cons_of_neg (by simpa using hcut),
          List.filter_cons_of_pos (by simpa using not_lt.mp hcut),
          List.filter_eq_self.mpr fun x hx => by
            simpa using le_trans (not_lt.mp hcut) (ha x hx)]

/-- Claim C2 (code bug): the rate-cap invariant fails at the exact window
boundary.  With a global limit of 1, a call admitted at time 0 and a second
call arriving at time 1.0 exactly: `_clean_old_timestamps` keeps the
timestamp 0 (the prune condition `ts < now - 1` is strict), yet
`_calculate_wait_time` returns `oldest + 1 - now = 0`, and `wait_time <= 0`
admits — after which the pruned trailing-1-second global window holds 2
timestamps, exceeding the configured limit of 1. -/
theorem boundary_grant_exceeds_global_cap :
    acquire cfgOne "x" 0 (envAt 0) 2 ⟨[], [], []⟩ =
      (some (.ok ()), ⟨[0], [("x", [0])], []⟩) ∧
    (acquire cfgOne "x" 1 (envAt 1) 2 ⟨[0], [("x", [0])], []⟩).1 = some (.ok ()) ∧
    (cleanOldTimestamps
        (acquire cfgOne "x" 1 (envAt 1) 2 ⟨[0], [("x", [0])], []⟩).2.global_timestamps
        1).length = 2 ∧
    cfgOne.max_requests_per_second = some 1 := by
  with_unfolding_all decide

/-- Claim C4 (code bug): cleanup is not unconditional.  The handler at line
190 is `except Exception:`, which does not catch `BaseException`-derived
exceptions such as `KeyboardInterrupt` — exactly the "outer cancellation"
case.  An interrupt delivered while the waiter blocks in `my_event.wait`
leaves the queue entry orphaned.  By contrast the second conjunct shows that
for an `Exception` subclass (the `RateLimitTimeout` raise) the cleanup does
run and the queue is emptied. -/
theorem interrupt_leaks_queue_entry :
    acquire cfgTen "x" 7 envInterrupted 2 ⟨[], [], []⟩ =
      (some (.error .interrupt), ⟨[], [], [⟨7, true, "x"⟩]⟩) ∧
    acquire cfgZeroWait "x" 7 (envAt 0) 1 ⟨[], [], []⟩ =
      (some (.error (.rateLimitTimeout "x" 0)), ⟨[], [], []⟩) := by
  with_unfolding_all decide

/-- Claim C6 (counterexample): `get_status` reports per-tool counts from the
raw deques without pruning.  Tool `"x"` has no call in the trailing 1-second
window at time 5 (its pruned window is empty), yet `tool_calls` still maps
`"x"` to 1 — refuting "maps exactly those tools with at least one call in
the trailing 1-second window to their pruned window sizes". -/
theorem status_reports_stale_tool_calls :
    (getStatus cfgTen 5 stateStale).1 = .ok ⟨0, 10, 0, [("x", 1)]⟩ ∧
    (cleanOldTimestamps (dictGetD stateStale.tool_timestamps "x") 5).length = 0 := by
  with_unfolding_all decide

/-- Claim C6 (amended): `get_status` returns the pruned global window size
(equal, on a sorted window, to the number of entries at least `now - 1`
old), the configured global limit, the queue depth, and — unlike the
original claim — the per-tool counts taken from the raw, unpruned deques of
every tool whose deque is nonempty; the wait queue is not mutated. -/
theorem getStatus_fields (config : Config) (L now : ℚ) (s : LimiterState)
    (hL : config.max_requests_per_second = some L)
    (hsorted : s.global_timestamps.Sorted (· ≤ ·)) :
    ∃ r, getStatus config now s =
        (.ok r, { s with global_timestamps := cleanOldTimestamps s.global_timestamps now }) ∧
      r.global_calls_last_second =
        (s.global_timestamps.filter fun t => decide (now - 1 ≤ t)).length ∧
      r.global_limit = L ∧
      r.queue_depth = s.queue.length ∧
      r.tool_calls =
        ((s.tool_timestamps.filter fun p => !p.2.isEmpty).map fun p => (p.1, p.2.length)) ∧
      (getStatus config now s).2.queue = s.queue := by
  have h1 : getStatus config now s =
      (.ok ⟨(cleanOldTimestamps s.global_timestamps now).length, L, s.queue.length,
        (s.tool_timestamps.filter fun p => !p.2.isEmpty).map fun p => (p.1, p.2.length)⟩,
        { s with global_timestamps := cleanOldTimestamps s.global_timestamps now }) := by
    unfold getStatus
    rw [hL]
  refine ⟨_, h1, ?_, rfl, rfl, rfl, ?_⟩
  · exact congrArg List.length (cleanOld_eq_filter _ _ hsorted)
  · rw [h1]

/-- Witness for `getStatus_fields` at a concrete configuration and state. -/
theorem getStatus_fields_witness :
    (cfgTen.max_requests_per_second = some 10 ∧
      stateSortedW.global_timestamps.Sorted (· ≤ ·)) ∧
    (∃ r, getStatus cfgTen 5 stateSortedW =
        (.ok r,
          { stateSortedW with
              global_timestamps := cleanOldTimestamps stateSortedW.global_timestamps 5 }) ∧
      r.global_calls_last_second =
        (stateSortedW.global_timestamps.filter fun t => decide (5 - 1 ≤ t)).length ∧
      r.global_limit = 10 ∧
      r.queue_depth = stateSortedW.queue.length ∧
      r.tool_calls =
        ((stateSortedW.tool_timestamps.filter fun p => !p.2.isEmpty).map
          fun p => (p.1, p.2.length)) ∧
      (getStatus cfgTen 5 stateSortedW).2.queue = stateSortedW.queue) :=
  ⟨⟨rfl, by decide⟩, getStatus_fields cfgTen 10 5 stateSortedW rfl (by decide)⟩

/-- Claim C7 (counterexample): a configuration source that is present but
invalid does crash construction — `_load_config` calls `json.load` without
any handler, so the parse error propagates instead of falling back to the
defaults. -/
theorem invalid_config_source_crashes :
    loadConfig (some (.error "Expecting value: line 1 column 1 (char 0)")) =
      .error "Expecting value: line 1 column 1 (char 0)" ∧
    loadConfig (some (.error "Expecting value: line 1 column 1 (char 0)")) ≠
      loadConfig none := by
  exact ⟨rfl, by decide⟩

/-- Claim C7 (amended): only a missing configuration source falls back to
the built-in defaults `{max_requests_per_second: 10, max_wait_seconds: 120,
tools: {}}`; a present but invalid source raises out of construction, and a
present partial mapping is used as-is with no defaults merged in. -/
theorem loadConfig_behavior :
    loadConfig none = .ok ⟨some 10, some 120, some []⟩ ∧
    (∀ e, loadConfig (some (.error e)) = .error e) ∧
    (∀ c, loadConfig (some (.ok c)) = .ok c) :=
  ⟨rfl, fun _ => rfl, fun _ => rfl⟩

/-- Claim C9: per-tool limit resolution.  When the global
`max_requests_per_second` key is present with value `g`, the limit applied
for a tool is its override when the tool appears in `tools` with the
override field, and `g` when the tool is absent or present without the
field. -/
theorem getToolLimit_resolution (config : Config) (g : ℚ) (toolName : String)
    (hg : config.max_requests_per_second = some g) :
    (∀ tc, lookupKV (config.tools.getD []) toolName = some tc →
        getToolLimit config toolName = .ok (tc.max_requests_per_second.getD g)) ∧
    (lookupKV (config.tools.getD []) toolName = none →
        getToolLimit config toolName = .ok g) := by
  constructor
  · intro tc htc
    simp only [getToolLimit, htc, hg]
  · intro hnone
    simp only [getToolLimit, hnone, hg]

/-- Witness for `getToolLimit_resolution`: override applied for `"a"`,
global limit applied for `"b"` (entry without the field) and for the absent
tool `"c"`. -/
theorem getToolLimit_resolution_witness :
    cfgOverrides.max_requests_per_second = some 10 ∧
    getToolLimit cfgOverrides "a" = .ok 3 ∧
    getToolLimit cfgOverrides "b" = .ok 10 ∧
    getToolLimit cfgOverrides "c" = .ok 10 :=
  ⟨rfl, (getToolLimit_resolution cfgOverrides 10 "a" rfl).1 ⟨some 3⟩ rfl,
    (getToolLimit_resolution cfgOverrides 10 "b" rfl).1 ⟨none⟩ rfl,
    (getToolLimit_resolution cfgOverrides 10 "c" rfl).2 rfl⟩

lemma setEvent_map_id (q : List Waiter) (i : ℕ) :
    (setEvent q i).map Waiter.id = q.map Waiter.id := by
  induction q with
  | nil => rfl
  | cons a tl ih => by_cases h : a.id = i <;> simp_all [setEvent]

lemma clearEvent_map_id (q : List Waiter) (i : ℕ) :
    (clearEvent q i).map Waiter.id = q.map Waiter.id := by
  induction q with
  | nil => rfl
  | cons a tl ih => by_cases h : a.id = i <;> simp_all [clearEvent]

lemma notifyNext_map_id (q : List Waiter) :
    (notifyNext q).map Waiter.id = q.map Waiter.id := by
  cases q <;> simp [notifyNext]

lemma joinQueue_map_id (q : List Waiter) (i : ℕ) (tool : String) :
    (joinQueue q i tool).map Waiter.id = q.map Waiter.id ++ [i] := by
  cases q with
  | nil => simp [joinQueue, setEvent]
  | cons a tl =>
      unfold joinQueue
      rw [if_neg (by simp)]
      simp

/-- `_calculate_wait_time` only touches the two timestamp windows; the wait
queue is untouched on every path. -/
lemma calculateWaitTime_queue (config : Config) (toolName : String) (now : ℚ)
    (s : LimiterState) :
    (calculateWaitTime config toolName now s).2.queue = s.queue := by
  simp only [calculateWaitTime, calculateWaitTime.calcToolPart]
  repeat' split <;> try rfl

lemma qstep_preserves_order {config : Config} {s s' : GState} {l : QLabel}
    (h : QStep config s l s') (hinv : queueIdsOrdered s) : queueIdsOrdered s' := by
  obtain ⟨hpw, hlt⟩ := hinv
  cases h with
  | enqueueL tool s =>
      refine ⟨?_, ?_⟩
      · rw [joinQueue_map_id, List.pairwise_append]
        refine ⟨hpw, List.pairwise_singleton _ _, fun a ha b hb => ?_⟩
        simp only [List.mem_singleton] at hb
        subst hb
        exact hlt a ha
      · rw [joinQueue_map_id]
        intro n hn
        rcases List.mem_append.mp hn with h1 | h1
        · exact lt_trans (hlt n h1) (Nat.lt_succ_self _)
        · simp only [List.mem_singleton] at h1
          subst h1
          exact Nat.lt_succ_self _
  | grantL s w rest now wt s2 hhead hcalc hwt =>
      have hq2 : s2.queue = s.lim.queue := by
        have h0 := calculateWaitTime_queue config w.toolName now s.lim
        rw [hcalc] at h0
        exact h0
      have hids : ((recordCall w.toolName now s2).queue.drop 1).map Waiter.id
          = rest.map Waiter.id := by
        show (s2.queue.drop 1).map Waiter.id = rest.map Waiter.id
        rw [hq2, hhead]
        rfl
      rw [hhead] at hpw hlt
      refine ⟨?_, ?_⟩
      · rw [notifyNext_map_id, hids]
        exact (List.pairwise_cons.mp (by simpa using hpw)).2
      · rw [notifyNext_map_id, hids]
        intro n hn
        exact hlt n (by simp only [List.map_cons, List.mem_cons]; exact Or.inr hn)
  | abortL s wid =>
      have hsub : ((s.lim.queue.filter fun w => decide (w.id ≠ wid)).map Waiter.id).Sublist
          (s.lim.queue.map Waiter.id) := (List.filter_sublist _).map _
      refine ⟨?_, ?_⟩
      · show ((notifyNext _).map Waiter.id).Pairwise (· < ·)
        rw [notifyNext_map_id]
        exact hpw.sublist hsub
      · show ∀ n ∈ (notifyNext _).map Waiter.id, _
        rw [notifyNext_map_id]
        intro n hn
        exact hlt n (hsub.subset hn)
  | clearL s wid =>
      refine ⟨?_, ?_⟩
      · rw [clearEvent_map_id]
        exact hpw
      · rw [clearEvent_map_id]
        exact hlt

/-- Every state reachable from a freshly constructed limiter has its queue
sorted by arrival order. -/
lemma reach_ordered {config : Config} {s : GState} (h : QReach config gInit s) :
    queueIdsOrdered s := by
  induction h with
  | refl => exact ⟨List.Pairwise.nil, by simp [gInit]⟩
  | tail h1 h2 ih =>
      obtain ⟨l, hst⟩ := h2
      exact qstep_preserves_order hst ih

/-- Claim C1: strict FIFO admission.  In any reachable state, when a waiter
is admitted (its timestamps recorded, label `grantL`), every other waiter
still in the queue carries a strictly larger arrival index — equivalently, a
later-arriving waiter is never admitted while an earlier-arriving waiter is
still queued and not yet admitted or removed, independent of the tools
involved.  Admission requires owning the head entry of the queue, and queue
order is arrival order. -/
theorem fifo_no_overtaking (config : Config) (s s' : GState) (wid : ℕ)
    (tool : String) (now : ℚ)
    (hreach : QReach config gInit s)
    (hstep : QStep config s (.grantL wid tool now) s') :
    ∀ w ∈ s.lim.queue, w.id ≠ wid → wid < w.id := by
  obtain ⟨hpw, -⟩ := reach_ordered hreach
  cases hstep with
  | grantL s0 w rest now0 wt s2 hhead hcalc hwt =>
      intro w2 hw2 hne
      rw [hhead] at hw2 hpw
      rcases List.mem_cons.mp hw2 with h2 | h2
      · subst h2
        exact absurd rfl hne
      · have hp : (∀ a ∈ rest, w.id < a.id) ∧
            List.Pairwise (· < ·) (rest.map Waiter.id) := by simpa using hpw
        exact hp.1 w2 h2

/-- Witness for `fifo_no_overtaking`: from a fresh limiter, waiter 0 (tool
`"a"`) arrives, then waiter 1 (tool `"b"`); the admission step fires for the
head waiter 0 and notifies waiter 1, and the still-queued waiter 1 indeed
arrived strictly later. -/
theorem fifo_no_overtaking_witness :
    QStep cfgTen ⟨⟨[], [], [⟨0, true, "a"⟩, ⟨1, false, "b"⟩]⟩, 2⟩
      (.grantL 0 "a" 0) ⟨⟨[0], [("a", [0])], [⟨1, true, "b"⟩]⟩, 2⟩ ∧ (0 : ℕ) < 1 := by
  have hcalc : calculateWaitTime cfgTen "a" 0
      (⟨[], [], [⟨0, true, "a"⟩, ⟨1, false, "b"⟩]⟩ : LimiterState) =
      (.ok 0, ⟨[], [("a", [])], [⟨0, true, "a"⟩, ⟨1, false, "b"⟩]⟩) := by
    with_unfolding_all decide
  have hstep : QStep cfgTen ⟨⟨[], [], [⟨0, true, "a"⟩, ⟨1, false, "b"⟩]⟩, 2⟩
      (.grantL 0 "a" 0) ⟨⟨[0], [("a", [0])], [⟨1, true, "b"⟩]⟩, 2⟩ := by
    have h0 := QStep.grantL ⟨⟨[], [], [⟨0, true, "a"⟩, ⟨1, false, "b"⟩]⟩, 2⟩
      ⟨0, true, "a"⟩ [⟨1, false, "b"⟩] 0 0
      ⟨[], [("a", [])], [⟨0, true, "a"⟩, ⟨1, false, "b"⟩]⟩ rfl hcalc le_rfl
    exact h0
  have e1 : QStep cfgTen gInit (.enqueueL 0 "a") ⟨⟨[], [], [⟨0, true, "a"⟩]⟩, 1⟩ :=
    QStep.enqueueL "a" gInit
  have e2 : QStep cfgTen ⟨⟨[], [], [⟨0, true, "a"⟩]⟩, 1⟩ (.enqueueL 1 "b")
      ⟨⟨[], [], [⟨0, true, "a"⟩, ⟨1, false, "b"⟩]⟩, 2⟩ :=
    QStep.enqueueL "b" _
  have hreach : QReach cfgTen gInit ⟨⟨[], [], [⟨0, true, "a"⟩, ⟨1, false, "b"⟩]⟩, 2⟩ :=
    Relation.ReflTransGen.tail (Relation.ReflTransGen.single ⟨_, e1⟩) ⟨_, e2⟩
  exact ⟨hstep, fifo_no_overtaking cfgTen _ _ 0 "a" 0 hreach hstep
    ⟨1, false, "b"⟩ (by simp) (by decide)⟩

lemma lookupKV_dictSet_self {α : Type} (d : List (String × α)) (k : String) (v : α) :
    lookupKV (dictSet d k v) k = some v := by
  induction d with
  | nil => simp [dictSet, lookupKV]
  | cons a rest ih =>
      obtain ⟨ak, av⟩ := a
      by_cases h : ak = k <;> simp [dictSet, lookupKV, h, ih]

lemma lookupKV_dictSet_other {α : Type} (d : List (String × α)) (k k' : String)
    (v : α) (h : k' ≠ k) :
    lookupKV (dictSet d k v) k' = lookupKV d k' := by
  have hkk : ¬ k = k' := fun he => h he.symm
  induction d with
  | nil => simp [dictSet, lookupKV, hkk]
  | cons a rest ih =>
      obtain ⟨ak, av⟩ := a
      by_cases hak : ak = k
      · subst hak
        simp [dictSet, lookupKV, hkk]
      · by_cases hak' : ak = k'
        · subst hak'
          simp [dictSet, lookupKV, hak]
        · simp [dictSet, lookupKV, hak, hak', ih]

/-- The state returned by `_calculate_wait_time` is the input state with the
global window pruned and, unless the function raised before reaching the
tool half, the tool's window pruned (its deque created when absent). -/
lemma calculateWaitTime_state (config : Config) (toolName : String) (now : ℚ)
    (s : LimiterState) :
    (calculateWaitTime config toolName now s).2 = s ∨
    (calculateWaitTime config toolName now s).2 =
      { s with global_timestamps := cleanOldTimestamps s.global_timestamps now } ∨
    (calculateWaitTime config toolName now s).2 =
      { s with global_timestamps := cleanOldTimestamps s.global_timestamps now,
               tool_timestamps := dictSet s.tool_timestamps toolName
                 (cleanOldTimestamps (dictGetD s.tool_timestamps toolName) now) } := by
  simp only [calculateWaitTime, calculateWaitTime.calcToolPart]
  repeat' split
  all_goals simp

/-- When `_calculate_wait_time` returns normally, the state it leaves behind
is exactly the input with both windows pruned at `now` (and the tool's deque
created when absent). -/
lemma calculateWaitTime_ok_state {config : Config} {toolName : String} {now wt : ℚ}
    {s s2 : LimiterState}
    (hcalc : calculateWaitTime config toolName now s = (.ok wt, s2)) :
    s2 = { s with global_timestamps := cleanOldTimestamps s.global_timestamps now,
                  tool_timestamps := dictSet s.tool_timestamps toolName
                    (cleanOldTimestamps (dictGetD s.tool_timestamps toolName) now) } := by
  revert hcalc
  simp only [calculateWaitTime, calculateWaitTime.calcToolPart]
  repeat' split
  all_goals intro hcalc
  all_goals first
    | (cases hcalc; rfl)
    | (exact absurd (congrArg Prod.fst hcalc) (by simp))

/-- With the global key present, both limits strictly positive, the wait
computation cannot raise: it returns a wait value and the pruned state. -/
lemma calculateWaitTime_ok (config : Config) (toolName : String) (L τ : ℚ)
    (hL : config.max_requests_per_second = some L) (hLpos : 0 < L)
    (hτ : getToolLimit config toolName = .ok τ) (hτpos : 0 < τ)
    (now : ℚ) (s : LimiterState) :
    ∃ wt s2, calculateWaitTime config toolName now s = (.ok wt, s2) := by
  simp only [calculateWaitTime, calculateWaitTime.calcToolPart, hL, hτ]
  repeat' split
  all_goals first
    | exact ⟨_, _, rfl⟩
    | (exfalso; simp_all only [List.length_nil, Nat.cast_zero]; linarith)

lemma dictGetD_dictSet_self (d : List (String × List ℚ)) (k : String) (v : List ℚ) :
    dictGetD (dictSet d k v) k = v := by
  simp [dictGetD, lookupKV_dictSet_self]

lemma windowsPrunedAt_refl (toolName : String) (now : ℚ) (s : LimiterState)
    {s2 : LimiterState} (hg : s2.global_timestamps = s.global_timestamps)
    (ht : s2.tool_timestamps = s.tool_timestamps) :
    windowsPrunedAt toolName now s s2 := by
  rw [windowsPrunedAt, hg, ht]
  exact ⟨Or.inl rfl, fun n hn => rfl, Or.inl rfl⟩

lemma calculateWaitTime_windows (config : Config) (toolName : String) (now : ℚ)
    (s : LimiterState) :
    windowsPrunedAt toolName now s (calculateWaitTime config toolName now s).2 := by
  rcases calculateWaitTime_state config toolName now s with h | h | h <;> rw [h]
  · exact ⟨Or.inl rfl, fun n hn => rfl, Or.inl rfl⟩
  · exact ⟨Or.inr rfl, fun n hn => rfl, Or.inl rfl⟩
  · exact ⟨Or.inr rfl, fun n hn => lookupKV_dictSet_other _ _ _ _ hn,
      Or.inr (dictGetD_dictSet_self _ _ _)⟩

lemma windowsPrunedAt_clean {toolName : String} {now : ℚ} {s s2 : LimiterState}
    (hw : windowsPrunedAt toolName now s s2) (T : ℚ) (hT : now ≤ T) :
    cleanOldTimestamps s2.global_timestamps T = cleanOldTimestamps s.global_timestamps T ∧
    cleanOldTimestamps (dictGetD s2.tool_timestamps toolName) T =
      cleanOldTimestamps (dictGetD s.tool_timestamps toolName) T := by
  obtain ⟨hg, ho, ht⟩ := hw
  constructor
  · rcases hg with h | h
    · rw [h]
    · rw [h]
      exact cleanOld_cleanOld _ _ _ hT
  · rcases ht with h | h
    · rw [h]
    · rw [h]
      exact cleanOld_cleanOld _ _ _ hT

/-- A loop iteration that falls through to the next iteration leaves the
windows untouched except for pruning at the current instant. -/
lemma acquireIter_inr_spec {config : Config} {toolName : String} {myId : ℕ}
    {mw start : ℚ} {env : AcquireEnv} {i : ℕ} {s s2 : LimiterState}
    (h : acquireIter config toolName myId mw start env i s = .inr s2) :
    windowsPrunedAt toolName (env.t i) s s2 := by
  rcases hc : calculateWaitTime config toolName (env.t i) s with ⟨res, sc⟩
  have hw : windowsPrunedAt toolName (env.t i) s sc := by
    have h0 := calculateWaitTime_windows config toolName (env.t i) s
    rw [hc] at h0
    exact h0
  unfold acquireIter at h
  split at h
  · exact Sum.noConfusion h
  · split at h
    · exact Sum.noConfusion h
    · split at h
      · injection h with h2
        subst h2
        exact windowsPrunedAt_refl _ _ _ rfl rfl
      · split at h
        · rw [hc] at h
          rcases res with e | wt
          · replace h : (Sum.inl (Except.error e, cleanupRemove myId sc) :
                (Except PyError Unit × LimiterState) ⊕ LimiterState) = .inr s2 := h
            exact Sum.noConfusion h
          · replace h : (if wt ≤ 0 then
                Sum.inl (Except.ok (), { recordCall toolName (env.t i) sc with
                  queue := notifyNext ((recordCall toolName (env.t i) sc).queue.drop 1) })
                else (Sum.inr sc :
                  (Except PyError Unit × LimiterState) ⊕ LimiterState)) = .inr s2 := h
            split at h
            · exact Sum.noConfusion h
            · injection h with h2
              subst h2
              exact hw
        · injection h with h2
          subst h2
          exact windowsPrunedAt_refl _ _ _ rfl rfl

/-- A loop iteration that exits successfully does so within the wait bound
and leaves both relevant windows pruned at the admission instant with
exactly the admission timestamp appended; other tools' windows are
untouched. -/
lemma acquireIter_inl_ok_spec {config : Config} {toolName : String} {myId : ℕ}
    {mw start : ℚ} {env : AcquireEnv} {i : ℕ} {s s2 : LimiterState}
    (h : acquireIter config toolName myId mw start env i s = .inl (.ok (), s2)) :
    0 < mw - (env.t i - start) ∧
    s2.global_timestamps = cleanOldTimestamps s.global_timestamps (env.t i) ++ [env.t i] ∧
    dictGetD s2.tool_timestamps toolName =
      cleanOldTimestamps (dictGetD s.tool_timestamps toolName) (env.t i) ++ [env.t i] ∧
    (∀ n, n ≠ toolName → lookupKV s2.tool_timestamps n = lookupKV s.tool_timestamps n) := by
  rcases hc : calculateWaitTime config toolName (env.t i) s with ⟨res, sc⟩
  unfold acquireIter at h
  split at h
  · simp at h
  · split at h
    · simp at h
    · split at h
      · exact Sum.noConfusion h
      · split at h
        · rw [hc] at h
          rcases res with e | wt
          · replace h : (Sum.inl (Except.error e, cleanupRemove myId sc) :
                (Except PyError Unit × LimiterState) ⊕ LimiterState) =
                .inl (.ok (), s2) := h
            simp at h
          · replace h : (if wt ≤ 0 then
                Sum.inl (Except.ok (), { recordCall toolName (env.t i) sc with
                  queue := notifyNext ((recordCall toolName (env.t i) sc).queue.drop 1) })
                else (Sum.inr sc :
                  (Except PyError Unit × LimiterState) ⊕ LimiterState)) =
                .inl (.ok (), s2) := h
            split at h
            · injection h with h2
              injection h2 with h2a h2b
              subst h2b
              have hsc := calculateWaitTime_ok_state hc
              subst hsc
              refine ⟨by linarith [not_le.mp (by assumption :
                  ¬ mw - (env.t i - start) ≤ 0)], rfl, ?_, ?_⟩
              · show dictGetD (dictSet _ toolName (dictGetD _ toolName ++ [env.t i]))
                    toolName = _
                rw [dictGetD_dictSet_self, dictGetD_dictSet_self]
              · intro n hn
                show lookupKV (dictSet _ toolName _) n = _
                rw [lookupKV_dictSet_other _ _ _ _ hn, lookupKV_dictSet_other _ _ _ _ hn]
            · exact Sum.noConfusion h
        · exact Sum.noConfusion h

/-- A loop iteration that exits with an exception leaves the windows
untouched except for pruning, and the exception is the timeout raise (fired
only when the cumulative wait has reached the bound), an interrupt delivered
during the wait, or an error escaping `_calculate_wait_time`. -/
lemma acquireIter_inl_err_spec {config : Config} {toolName : String} {myId : ℕ}
    {mw start : ℚ} {env : AcquireEnv} {i : ℕ} {s s2 : LimiterState} {e : PyError}
    (h : acquireIter config toolName myId mw start env i s = .inl (.error e, s2)) :
    windowsPrunedAt toolName (env.t i) s s2 ∧
    (e = .rateLimitTimeout toolName mw ∧ mw ≤ env.t i - start ∨
      e = .interrupt ∧ env.interrupt i = true ∨
      ∃ sc, calculateWaitTime config toolName (env.t i) s = (.error e, sc)) := by
  rcases hc : calculateWaitTime config toolName (env.t i) s with ⟨res, sc⟩
  have hw : windowsPrunedAt toolName (env.t i) s sc := by
    have h0 := calculateWaitTime_windows config toolName (env.t i) s
    rw [hc] at h0
    exact h0
  unfold acquireIter at h
  split at h
  · injection h with h2
    injection h2 with h2a h2b
    subst h2b
    injection h2a with h2a
    subst h2a
    exact ⟨windowsPrunedAt_refl _ _ _ rfl rfl,
      Or.inl ⟨rfl, by linarith [(by assumption : mw - (env.t i - start) ≤ 0)]⟩⟩
  · split at h
    · injection h with h2
      injection h2 with h2a h2b
      subst h2b
      injection h2a with h2a
      subst h2a
      exact ⟨windowsPrunedAt_refl _ _ _ rfl rfl, Or.inr (Or.inl ⟨rfl, by assumption⟩)⟩
    · split at h
      · exact Sum.noConfusion h
      · split at h
        · rw [hc] at h
          rcases res with e0 | wt
          · replace h : (Sum.inl (Except.error e0, cleanupRemove myId sc) :
                (Except PyError Unit × LimiterState) ⊕ LimiterState) =
                .inl (.error e, s2) := h
            injection h with h2
            injection h2 with h2a h2b
            subst h2b
            injection h2a with h2a
            subst h2a
            exact ⟨hw, Or.inr (Or.inr ⟨sc, rfl⟩)⟩
          · replace h : (if wt ≤ 0 then
                Sum.inl (Except.ok (), { recordCall toolName (env.t i) sc with
                  queue := notifyNext ((recordCall toolName (env.t i) sc).queue.drop 1) })
                else (Sum.inr sc :
                  (Except PyError Unit × LimiterState) ⊕ LimiterState)) =
                .inl (.error e, s2) := h
            split at h
            · simp at h
            · exact Sum.noConfusion h
        · exact Sum.noConfusion h

/-- A failed run of the wait loop (timeout, interrupt, or escaping error)
adds no timestamp: windows of other tools are untouched, and at any instant
`T` past all the loop's clock readings the pruned views of the global window
and of the tool's window are exactly what they were at entry. -/
lemma acquireLoop_fail_windows (config : Config) (toolName : String) (myId : ℕ)
    (mw start : ℚ) (env : AcquireEnv) :
    ∀ fuel i s r s2,
      acquireLoop config toolName myId mw start env fuel i s = (some r, s2) →
      r ≠ .ok () →
      (∀ n, n ≠ toolName → lookupKV s2.tool_timestamps n = lookupKV s.tool_timestamps n) ∧
      ∀ T, (∀ j, env.t j ≤ T) →
        cleanOldTimestamps s2.global_timestamps T =
          cleanOldTimestamps s.global_timestamps T ∧
        cleanOldTimestamps (dictGetD s2.tool_timestamps toolName) T =
          cleanOldTimestamps (dictGetD s.tool_timestamps toolName) T := by
  intro fuel
  induction fuel with
  | zero =>
      intro i s r s2 h
      exact absurd h (by simp [acquireLoop])
  | succ n ih =>
      intro i s r s2 h hr
      cases hit : acquireIter config toolName myId mw start env i s with
      | inl p =>
          obtain ⟨r0, s0⟩ := p
          simp only [acquireLoop, hit] at h
          obtain ⟨h1, h2⟩ := Prod.mk.injEq .. |>.mp h
          injection h1 with h1
          subst h1 h2
          cases r0 with
          | ok u =>
              cases u
              exact absurd rfl hr
          | error e =>
              obtain ⟨hw, -⟩ := acquireIter_inl_err_spec hit
              exact ⟨hw.2.1, fun T hT =>
                windowsPrunedAt_clean hw T (hT i)⟩
      | inr s1 =>
          simp only [acquireLoop, hit] at h
          obtain ⟨iho, ihT⟩ := ih (i + 1) s1 r s2 h hr
          have hw := acquireIter_inr_spec hit
          refine ⟨fun n0 hn => (iho n0 hn).trans (hw.2.1 n0 hn), fun T hT => ?_⟩
          obtain ⟨hg1, ht1⟩ := windowsPrunedAt_clean hw T (hT i)
          obtain ⟨hg2, ht2⟩ := ihT T hT
          exact ⟨hg2.trans hg1, ht2.trans ht1⟩

/-- A successful run of the wait loop admits at one iteration `j`: at that
instant the cumulative wait is still below the bound, and the final windows
are the entry windows pruned at `env.t j` with exactly the admission
timestamp appended; windows of other tools are untouched. -/
lemma acquireLoop_ok_windows (config : Config) (toolName : String) (myId : ℕ)
    (mw start : ℚ) (env : AcquireEnv) (hmono : Monotone env.t) :
    ∀ fuel i s s2,
      acquireLoop config toolName myId mw start env fuel i s = (some (.ok ()), s2) →
      ∃ j, i ≤ j ∧ 0 < mw - (env.t j - start) ∧
        s2.global_timestamps =
          cleanOldTimestamps s.global_timestamps (env.t j) ++ [env.t j] ∧
        dictGetD s2.tool_timestamps toolName =
          cleanOldTimestamps (dictGetD s.tool_timestamps toolName) (env.t j) ++ [env.t j] ∧
        (∀ n, n ≠ toolName →
          lookupKV s2.tool_timestamps n = lookupKV s.tool_timestamps n) := by
  intro fuel
  induction fuel with
  | zero =>
      intro i s s2 h
      exact absurd h (by simp [acquireLoop])
  | succ n ih =>
      intro i s s2 h
      cases hit : acquireIter config toolName myId mw start env i s with
      | inl p =>
          obtain ⟨r0, s0⟩ := p
          simp only [acquireLoop, hit] at h
          obtain ⟨h1, h2⟩ := Prod.mk.injEq .. |>.mp h
          injection h1 with h1
          subst h1 h2
          obtain ⟨hpos, hg, ht, ho⟩ := acquireIter_inl_ok_spec hit
          exact ⟨i, le_refl i, hpos, hg, ht, ho⟩
      | inr s1 =>
          simp only [acquireLoop, hit] at h
          obtain ⟨j, hj, hpos, hg, ht, ho⟩ := ih (i + 1) s1 s2 h
          have hw := acquireIter_inr_spec hit
          have hij : env.t i ≤ env.t j := hmono (le_trans (Nat.le_succ i) hj)
          refine ⟨j, le_trans (Nat.le_succ i) hj, hpos, ?_, ?_,
            fun n0 hn => (ho n0 hn).trans (hw.2.1 n0 hn)⟩
          · rcases hw.1 with h1 | h1
            · rw [hg, h1]
            · rw [hg, h1, cleanOld_cleanOld _ _ _ hij]
          · rcases hw.2.2 with h1 | h1
            · rw [ht, h1]
            · rw [ht, h1, cleanOld_cleanOld _ _ _ hij]

/-- With no interrupts, the global key present and both limits positive,
each completed run of the wait loop either succeeds or raises the timeout
error, which carries the tool name and the wait bound and fires only at an
iteration whose clock reading shows the cumulative wait at or past the
bound. -/
lemma acquireLoop_outcome (config : Config) (toolName : String) (myId : ℕ)
    (mw start : ℚ) (env : AcquireEnv) (L τ : ℚ)
    (hni : ∀ j, env.interrupt j = false)
    (hL : config.max_requests_per_second = some L) (hLpos : 0 < L)
    (hτ : getToolLimit config toolName = .ok τ) (hτpos : 0 < τ) :
    ∀ fuel i s r s2,
      acquireLoop config toolName myId mw start env fuel i s = (some r, s2) →
      r = .ok () ∨
        (r = .error (.rateLimitTimeout toolName mw) ∧ ∃ j, mw ≤ env.t j - start) := by
  intro fuel
  induction fuel with
  | zero =>
      intro i s r s2 h
      exact absurd h (by simp [acquireLoop])
  | succ n ih =>
      intro i s r s2 h
      cases hit : acquireIter config toolName myId mw start env i s with
      | inl p =>
          obtain ⟨r0, s0⟩ := p
          simp only [acquireLoop, hit] at h
          obtain ⟨h1, h2⟩ := Prod.mk.injEq .. |>.mp h
          injection h1 with h1
          subst h1 h2
          cases r0 with
          | ok u =>
              cases u
              exact Or.inl rfl
          | error e =>
              obtain ⟨-, hclass⟩ := acquireIter_inl_err_spec hit
              rcases hclass with ⟨he, hsl⟩ | ⟨he, hint⟩ | ⟨sc, hcalc⟩
              · exact Or.inr ⟨by rw [he], ⟨i, hsl⟩⟩
              · rw [hni i] at hint
                exact absurd hint (by simp)
              · obtain ⟨wt, sc2, hok⟩ :=
                  calculateWaitTime_ok config toolName L τ hL hLpos hτ hτpos (env.t i) s
                rw [hok] at hcalc
                exact absurd (congrArg Prod.fst hcalc) (by simp)
      | inr s1 =>
          simp only [acquireLoop, hit] at h
          exact ih (i + 1) s1 r s2 h

/-- Claim C3: `acquire` blocks until it either succeeds — exactly when
admission is granted under both budgets at an iteration whose cumulative
wait is still below `max_wait` (the admission instant is the timestamp
recorded last into the global window) — or raises `RateLimitTimeout`, which
carries the tool name and the configured wait bound
(`max_wait_seconds` with default 120) and fires exactly when a loop check
observes the cumulative wait at or past the bound; the error is returned to
the caller, never swallowed. -/
theorem acquire_success_or_timeout (config : Config) (toolName : String)
    (myId : ℕ) (env : AcquireEnv) (fuel : ℕ) (s : LimiterState)
    (r : Except PyError Unit) (s2 : LimiterState) (L τ : ℚ)
    (hrun : acquire config toolName myId env fuel s = (some r, s2))
    (hni : ∀ j, env.interrupt j = false)
    (hL : config.max_requests_per_second = some L) (hLpos : 0 < L)
    (hτ : getToolLimit config toolName = .ok τ) (hτpos : 0 < τ)
    (hmono : Monotone env.t) :
    (r = .ok () ∨
      r = .error (.rateLimitTimeout toolName (config.max_wait_seconds.getD 120))) ∧
    (r = .error (.rateLimitTimeout toolName (config.max_wait_seconds.getD 120)) →
      ∃ j, config.max_wait_seconds.getD 120 ≤ env.t j - env.t 0) ∧
    (r = .ok () → ∃ j, env.t j - env.t 0 < config.max_wait_seconds.getD 120 ∧
      s2.global_timestamps.getLast? = some (env.t j)) := by
  unfold acquire at hrun
  have hout := acquireLoop_outcome config toolName myId
    (config.max_wait_seconds.getD 120) (env.t 0) env L τ hni hL hLpos hτ hτpos
    fuel 1 _ r s2 hrun
  refine ⟨?_, ?_, ?_⟩
  · rcases hout with h | ⟨h, -⟩
    · exact Or.inl h
    · exact Or.inr h
  · intro hr
    rcases hout with h | ⟨-, hj⟩
    · rw [h] at hr
      exact absurd hr (by simp)
    · exact hj
  · intro hr
    subst hr
    obtain ⟨j, hij, hpos, hg, -, -⟩ := acquireLoop_ok_windows config toolName myId
      (config.max_wait_seconds.getD 120) (env.t 0) env hmono fuel 1 _ s2 hrun
    exact ⟨j, by linarith, by rw [hg]; simp⟩

/-- Witness for `acquire_success_or_timeout`: a concrete successful run
under the default limits, admitted at the first iteration. -/
theorem acquire_success_or_timeout_witness :
    acquire cfgTen "x" 0 envLin 2 ⟨[], [], []⟩ =
      (some (.ok ()), ⟨[1], [("x", [1])], []⟩) ∧
    (∃ j, envLin.t j - envLin.t 0 < cfgTen.max_wait_seconds.getD 120 ∧
      (⟨[1], [("x", [1])], []⟩ : LimiterState).global_timestamps.getLast? =
        some (envLin.t j)) := by
  have hrun : acquire cfgTen "x" 0 envLin 2 ⟨[], [], []⟩ =
      (some (.ok ()), ⟨[1], [("x", [1])], []⟩) := by
    with_unfolding_all decide
  exact ⟨hrun, (acquire_success_or_timeout cfgTen "x" 0 envLin 2 ⟨[], [], []⟩
    (.ok ()) ⟨[1], [("x", [1])], []⟩ 10 10 hrun (fun j => rfl) rfl (by norm_num)
    rfl (by norm_num) (fun a b hab => Nat.cast_le.mpr hab)).2.2 rfl⟩

/-- Claim C5: no false recording.  A successful `acquire` appends exactly
one timestamp (the admission instant) to the global window and one to its
tool's window, both on top of the pruned entry windows; an `acquire` that
raises — timeout, or any other exception including an uncaught interrupt —
adds no timestamp: at any instant past the run's clock readings the pruned
trailing-1-second views of the global window and of the tool's window are
exactly what they would have been without the call, and windows of other
tools are untouched on every path. -/
theorem acquire_records_only_on_success (config : Config) (toolName : String)
    (myId : ℕ) (env : AcquireEnv) (fuel : ℕ) (s : LimiterState)
    (r : Except PyError Unit) (s2 : LimiterState)
    (hrun : acquire config toolName myId env fuel s = (some r, s2))
    (hmono : Monotone env.t) :
    (r = .ok () → ∃ j,
      s2.global_timestamps =
        cleanOldTimestamps s.global_timestamps (env.t j) ++ [env.t j] ∧
      dictGetD s2.tool_timestamps toolName =
        cleanOldTimestamps (dictGetD s.tool_timestamps toolName) (env.t j) ++ [env.t j]) ∧
    (r ≠ .ok () → ∀ T, (∀ j, env.t j ≤ T) →
      cleanOldTimestamps s2.global_timestamps T =
        cleanOldTimestamps s.global_timestamps T ∧
      cleanOldTimestamps (dictGetD s2.tool_timestamps toolName) T =
        cleanOldTimestamps (dictGetD s.tool_timestamps toolName) T) ∧
    (∀ n, n ≠ toolName → lookupKV s2.tool_timestamps n = lookupKV s.tool_timestamps n) := by
  unfold acquire at hrun
  refine ⟨?_, ?_, ?_⟩
  · intro hr
    subst hr
    obtain ⟨j, -, -, hg, ht, -⟩ := acquireLoop_ok_windows config toolName myId
      (config.max_wait_seconds.getD 120) (env.t 0) env hmono fuel 1 _ s2 hrun
    exact ⟨j, hg, ht⟩
  · intro hr
    exact (acquireLoop_fail_windows config toolName myId
      (config.max_wait_seconds.getD 120) (env.t 0) env fuel 1 _ r s2 hrun hr).2
  · by_cases hr : r = .ok ()
    · subst hr
      obtain ⟨j, -, -, -, -, ho⟩ := acquireLoop_ok_windows config toolName myId
        (config.max_wait_seconds.getD 120) (env.t 0) env hmono fuel 1 _ s2 hrun
      exact ho
    · exact (acquireLoop_fail_windows config toolName myId
        (config.max_wait_seconds.getD 120) (env.t 0) env fuel 1 _ r s2 hrun hr).1

/-- Witness for `acquire_records_only_on_success`: a run from a state with
one expired and one fresh timestamp per window, which prunes at the first
head attempt (wait 1/2 > 0) and is then killed by an interrupt — the
pruned trailing-1-second views are unchanged and no timestamp was added. -/
theorem acquire_records_only_on_success_witness :
    acquire cfgOne "x" 9 envIntAt2 2 ⟨[0, 1], [("x", [0, 1])], []⟩ =
      (some (.error .interrupt), ⟨[1], [("x", [1])], [⟨9, true, "x"⟩]⟩) ∧
    (cleanOldTimestamps
        (⟨[1], [("x", [1])], [⟨9, true, "x"⟩]⟩ : LimiterState).global_timestamps (3 / 2) =
      cleanOldTimestamps
        (⟨[0, 1], [("x", [0, 1])], []⟩ : LimiterState).global_timestamps (3 / 2) ∧
    cleanOldTimestamps
        (dictGetD (⟨[1], [("x", [1])], [⟨9, true, "x"⟩]⟩ : LimiterState).tool_timestamps
          "x") (3 / 2) =
      cleanOldTimestamps
        (dictGetD (⟨[0, 1], [("x", [0, 1])], []⟩ : LimiterState).tool_timestamps
          "x") (3 / 2)) := by
  have hrun : acquire cfgOne "x" 9 envIntAt2 2 ⟨[0, 1], [("x", [0, 1])], []⟩ =
      (some (.error .interrupt), ⟨[1], [("x", [1])], [⟨9, true, "x"⟩]⟩) := by
    with_unfolding_all decide
  exact ⟨hrun, (acquire_records_only_on_success cfgOne "x" 9 envIntAt2 2
    ⟨[0, 1], [("x", [0, 1])], []⟩ (.error .interrupt)
    ⟨[1], [("x", [1])], [⟨9, true, "x"⟩]⟩ hrun monotone_const).2.1
    (by simp) (3 / 2) (fun j => le_rfl)⟩

lemma getToolLimit_congr (c1 c2 : Config)
    (h1 : c1.max_requests_per_second = c2.max_requests_per_second)
    (h2 : c1.tools = c2.tools) (toolName : String) :
    getToolLimit c1 toolName = getToolLimit c2 toolName := by
  unfold getToolLimit
  rw [h1, h2]

lemma calculateWaitTime_congr (c1 c2 : Config)
    (h1 : c1.max_requests_per_second = c2.max_requests_per_second)
    (h2 : c1.tools = c2.tools) (toolName : String) (now : ℚ) (s : LimiterState) :
    calculateWaitTime c1 toolName now s = calculateWaitTime c2 toolName now s := by
  unfold calculateWaitTime
  rw [h1, getToolLimit_congr c1 c2 h1 h2]

lemma acquireIter_congr (c1 c2 : Config)
    (h1 : c1.max_requests_per_second = c2.max_requests_per_second)
    (h2 : c1.tools = c2.tools) (toolName : String) (myId : ℕ) (mw start : ℚ)
    (env : AcquireEnv) (i : ℕ) (s : LimiterState) :
    acquireIter c1 toolName myId mw start env i s =
      acquireIter c2 toolName myId mw start env i s := by
  unfold acquireIter
  rw [calculateWaitTime_congr c1 c2 h1 h2]

/-- The wait loop reads the configuration only through the two limit fields;
`max_wait_seconds` enters solely via the `maxWait` argument. -/
lemma acquireLoop_congr (c1 c2 : Config)
    (h1 : c1.max_requests_per_second = c2.max_requests_per_second)
    (h2 : c1.tools = c2.tools) (toolName : String) (myId : ℕ) (mw start : ℚ)
    (env : AcquireEnv) :
    ∀ fuel i s, acquireLoop c1 toolName myId mw start env fuel i s =
      acquireLoop c2 toolName myId mw start env fuel i s := by
  intro fuel
  induction fuel with
  | zero => intro i s; rfl
  | succ n ih =>
      intro i s
      cases hit : acquireIter c2 toolName myId mw start env i s with
      | inl p =>
          obtain ⟨r0, s0⟩ := p
          simp only [acquireLoop, acquireIter_congr c1 c2 h1 h2, hit]
      | inr s1 =>
          simp only [acquireLoop, acquireIter_congr c1 c2 h1 h2, hit]
          exact ih (i + 1) s1

/-- Claim C10 (implicit defaulting asymmetry): a configuration file lacking
`max_wait_seconds` behaves exactly as if the field were 120 (the
`config.get` default inside `acquire`), but a configuration lacking
`max_requests_per_second` is never defaulted: every `get_status` call and
every `acquire` call that reaches its first admission check fails with the
key-lookup error (and cleanly removes its queue entry, since `KeyError`
derives from `Exception`). -/
theorem missing_global_rate_key_raises (config : Config)
    (hK : config.max_requests_per_second = none) :
    (∀ now s, (getStatus config now s).1 = .error (.keyError "max_requests_per_second")) ∧
    (∀ toolName myId env (fuel : ℕ) s, s.queue = [] → env.interrupt 1 = false →
      env.t 1 - env.t 0 < config.max_wait_seconds.getD 120 →
      acquire config toolName myId env (fuel + 1) s =
        (some (.error (.keyError "max_requests_per_second")), s)) ∧
    (∀ (c : Config) toolName myId env (fuel : ℕ) s, c.max_wait_seconds = none →
      acquire c toolName myId env fuel s =
        acquire { c with max_wait_seconds := some 120 } toolName myId env fuel s) := by
  refine ⟨?_, ?_, ?_⟩
  · intro now s
    simp only [getStatus, hK]
  · intro toolName myId env fuel s hq hni1 htime
    have hto : ¬ config.max_wait_seconds.getD 120 - (env.t 1 - env.t 0) ≤ 0 := by
      linarith
    have hni' : ¬ env.interrupt 1 = true := by simp [hni1]
    have hjq : joinQueue s.queue myId toolName = [⟨myId, true, toolName⟩] := by
      rw [hq]
      simp [joinQueue, setEvent]
    have hcalc : ∀ s0 : LimiterState,
        calculateWaitTime config toolName (env.t 1) s0 =
          (.error (.keyError "max_requests_per_second"), s0) := by
      intro s0
      unfold calculateWaitTime
      rw [hK]
    have hiter : acquireIter config toolName myId (config.max_wait_seconds.getD 120)
        (env.t 0) env 1 { s with queue := joinQueue s.queue myId toolName } =
        .inl (.error (.keyError "max_requests_per_second"), { s with queue := [] }) := by
      simp only [acquireIter, if_neg hto, if_neg hni', hjq, hcalc, cleanupRemove,
        notifyNext, List.filter]
      simp
    simp only [acquire, acquireLoop, hiter]
    rw [show ({ s with queue := [] } : LimiterState) = s from by rw [← hq]]
  · intro c toolName myId env fuel s hnone
    simp only [acquire, hnone, Option.getD_none, Option.getD_some]
    exact acquireLoop_congr c { c with max_wait_seconds := some 120 } rfl rfl
      toolName myId 120 (env.t 0) env fuel 1 _

/-- Witness for `missing_global_rate_key_raises`: with the global key
absent, a concrete `get_status` call and a concrete `acquire` call both
fail with the key-lookup error instead of defaulting to 10. -/
theorem missing_global_rate_key_raises_witness :
    cfgNoRate.max_requests_per_second = none ∧
    (getStatus cfgNoRate 5 stateStale).1 = .error (.keyError "max_requests_per_second") ∧
    acquire cfgNoRate "x" 0 envLin 3 ⟨[], [], []⟩ =
      (some (.error (.keyError "max_requests_per_second")), ⟨[], [], []⟩) :=
  ⟨rfl, (missing_global_rate_key_raises cfgNoRate rfl).1 5 stateStale,
    (missing_global_rate_key_raises cfgNoRate rfl).2.1 "x" 0 envLin 2 ⟨[], [], []⟩
      rfl rfl (by norm_num [envLin, cfgNoRate])⟩

lemma filter_dropWhile_of_imp {α : Type} (p q : α → Bool)
    (h : ∀ a, p a = true → q a = false) (l : List α) :
    (l.dropWhile p).filter q = l.filter q := by
  induction l with
  | nil => rfl
  | cons a tl ih =>
      by_cases hp : p a = true
      · rw [List.dropWhile_cons_of_pos hp, ih, List.filter_cons_of_neg (by simp [h a hp])]
      · rw [List.dropWhile_cons_of_neg hp]

/-- For a nonnegative delay, counting the strictly-in-window entries ignores
whether expired entries were already popped. -/
lemma filter_cleanOld (l : List ℚ) (now δ : ℚ) (hδ : 0 ≤ δ) :
    (cleanOldTimestamps l now).filter (fun t => decide (now + δ - 1 < t)) =
      l.filter (fun t => decide (now + δ - 1 < t)) := by
  refine filter_dropWhile_of_imp _ _ (fun a ha => ?_) l
  simp only [decide_eq_true_eq] at ha
  simp only [decide_eq_false_iff_not, not_lt]
  linarith

lemma length_filter_lt_of_mem_not {l : List ℚ} {q : ℚ → Bool} {x : ℚ}
    (hx : x ∈ l) (hxq : q x = false) :
    (l.filter q).length < l.length := by
  induction l with
  | nil => cases hx
  | cons a tl ih =>
      rcases List.mem_cons.mp hx with rfl | hmem
      · rw [List.filter_cons_of_neg (by simp [hxq])]
        exact Nat.lt_succ_of_le (List.length_filter_le _ _)
      · by_cases hqa : q a = true
        · rw [List.filter_cons_of_pos hqa]
          simpa using ih hmem
        · rw [List.filter_cons_of_neg (by simp [hqa])]
          exact Nat.lt_succ_of_lt (ih hmem)

lemma cleanOld_head_not_lt {l : List ℚ} {now hd : ℚ} {tl : List ℚ}
    (h : cleanOldTimestamps l now = hd :: tl) : ¬ hd < now - 1 := by
  induction l with
  | nil => cases h
  | cons a l2 ih =>
      by_cases ha : a < now - 1
      · rw [cleanOldTimestamps, List.dropWhile_cons_of_pos (by simpa using ha)] at h
        exact ih h
      · rw [cleanOldTimestamps, List.dropWhile_cons_of_neg (by simpa using ha)] at h
        injection h with h1 h2
        subst h1
        exact ha

lemma cleanOld_sorted {l : List ℚ} (now : ℚ) (h : l.Sorted (· ≤ ·)) :
    (cleanOldTimestamps l now).Sorted (· ≤ ·) :=
  List.Pairwise.sublist (List.dropWhile_sublist _) h

lemma belowCap_mono (l : List ℚ) (K now : ℚ) {δ δ' : ℚ} (h : δ ≤ δ')
    (hb : belowCap l K now δ) : belowCap l K now δ' := by
  unfold belowCap at hb ⊢
  have hsub : List.Sublist (l.filter (fun t => decide (now + δ' - 1 < t)))
      (l.filter (fun t => decide (now + δ - 1 < t))) := by
    refine List.monotone_filter_right l (fun a ha => ?_)
    simp only [decide_eq_true_eq] at ha ⊢
    linarith
  have := hsub.length_le
  calc ((l.filter fun t => decide (now + δ' - 1 < t)).length : ℚ)
      ≤ ((l.filter fun t => decide (now + δ - 1 < t)).length : ℚ) := by exact_mod_cast this
    _ < K := hb

lemma belowCap_of_unsat {l : List ℚ} {K now : ℚ}
    (hp : ((cleanOldTimestamps l now).length : ℚ) < K) {δ : ℚ} (hδ : 0 ≤ δ) :
    belowCap l K now δ := by
  unfold belowCap
  rw [← filter_cleanOld l now δ hδ]
  calc (((cleanOldTimestamps l now).filter fun t => decide (now + δ - 1 < t)).length : ℚ)
      ≤ ((cleanOldTimestamps l now).length : ℚ) := by
        exact_mod_cast List.length_filter_le _ _
    _ < K := hp

lemma belowCap_at_head {l : List ℚ} {K now hd : ℚ} {tl : List ℚ}
    (hp : cleanOldTimestamps l now = hd :: tl)
    (hle : ((cleanOldTimestamps l now).length : ℚ) ≤ K) :
    belowCap l K now (hd + 1 - now) := by
  have hδ : 0 ≤ hd + 1 - now := by
    have h0 := not_lt.mp (cleanOld_head_not_lt hp)
    linarith
  unfold belowCap
  rw [← filter_cleanOld l now _ hδ, hp]
  have hcut : now + (hd + 1 - now) - 1 = hd := by ring
  simp only [hcut]
  have hlt : ((hd :: tl).filter fun t => decide (hd < t)).length < (hd :: tl).length :=
    length_filter_lt_of_mem_not (List.mem_cons_self hd tl) (by simp)
  rw [hp] at hle
  calc (((hd :: tl).filter fun t => decide (hd < t)).length : ℚ)
      < ((hd :: tl).length : ℚ) := by exact_mod_cast hlt
    _ ≤ K := hle

lemma head_le_of_belowCap {l : List ℚ} {K now hd : ℚ} {tl : List ℚ} {δ : ℚ}
    (hsorted : l.Sorted (· ≤ ·))
    (hp : cleanOldTimestamps l now = hd :: tl)
    (hsat : K ≤ ((cleanOldTimestamps l now).length : ℚ))
    (hδ : 0 ≤ δ) (hb : belowCap l K now δ) :
    hd + 1 - now ≤ δ := by
  by_contra hcon
  push_neg at hcon
  have hps : (cleanOldTimestamps l now).Sorted (· ≤ ·) := cleanOld_sorted now hsorted
  have hall : ∀ x ∈ cleanOldTimestamps l now,
      (fun t => decide (now + δ - 1 < t)) x = true := by
    intro x hx
    rw [hp] at hx hps
    have hhd : hd ≤ x := by
      rcases List.mem_cons.mp hx with rfl | hx2
      · exact le_refl x
      · exact (List.sorted_cons.mp hps).1 x hx2
    simp only [decide_eq_true_eq]
    linarith
  have heq : (cleanOldTimestamps l now).filter (fun t => decide (now + δ - 1 < t)) =
      cleanOldTimestamps l now := List.filter_eq_self.mpr hall
  unfold belowCap at hb
  rw [← filter_cleanOld l now δ hδ, heq] at hb
  linarith

/-- Claim C8 (counterexample): the backoff is not 0 exactly when both pruned
windows are strictly below their limits.  With a global limit of 1 and one
timestamp aged exactly 1 second, the pruned global window still holds 1
entry (not strictly below the limit), yet `_calculate_wait_time` returns
`oldest + 1 - now = 0`. -/
theorem waitTime_zero_at_full_boundary_window :
    calculateWaitTime cfgOne "x" 1 ⟨[0], [], []⟩ = (.ok 0, ⟨[0], [("x", [])], []⟩) ∧
    ¬ (cleanOldTimestamps (⟨[0], [], []⟩ : LimiterState).global_timestamps 1).length < 1 ∧
    cfgOne.max_requests_per_second = some 1 := by
  with_unfolding_all decide

lemma calcToolPart_sat (toolName : String) (now τ : ℚ) (wgs : List ℚ)
    (thd : ℚ) (ttl : List ℚ) (s1 : LimiterState)
    (htp : cleanOldTimestamps (dictGetD s1.tool_timestamps toolName) now = thd :: ttl)
    (hsat : τ ≤ ((thd :: ttl).length : ℚ)) :
    ∃ s2, calculateWaitTime.calcToolPart toolName now τ wgs s1 =
      (.ok (match wgs ++ [thd + 1 - now] with
            | [] => 0
            | w :: ws => ws.foldl max w), s2) := by
  unfold calculateWaitTime.calcToolPart
  rw [htp, if_pos hsat]
  exact ⟨_, rfl⟩

lemma calcToolPart_unsat (toolName : String) (now τ : ℚ) (wgs : List ℚ)
    (s1 : LimiterState)
    (hunsat : ¬ τ ≤
      ((cleanOldTimestamps (dictGetD s1.tool_timestamps toolName) now).length : ℚ)) :
    ∃ s2, calculateWaitTime.calcToolPart toolName now τ wgs s1 =
      (.ok (match wgs with
            | [] => 0
            | w :: ws => ws.foldl max w), s2) := by
  unfold calculateWaitTime.calcToolPart
  rw [if_neg hunsat]
  exact ⟨_, rfl⟩

lemma calculateWaitTime_gsat (config : Config) (toolName : String) (now L τ : ℚ)
    (s : LimiterState) (hL : config.max_requests_per_second = some L)
    (hτ : getToolLimit config toolName = .ok τ) (ghd : ℚ) (gtl : List ℚ)
    (hgp : cleanOldTimestamps s.global_timestamps now = ghd :: gtl)
    (hsat : L ≤ ((ghd :: gtl).length : ℚ)) :
    calculateWaitTime config toolName now s =
      calculateWaitTime.calcToolPart toolName now τ [ghd + 1 - now]
        { s with global_timestamps := ghd :: gtl } := by
  simp only [calculateWaitTime, hL, hτ, hgp]
  rw [if_pos hsat]

lemma calculateWaitTime_gunsat (config : Config) (toolName : String) (now L τ : ℚ)
    (s : LimiterState) (hL : config.max_requests_per_second = some L)
    (hτ : getToolLimit config toolName = .ok τ)
    (hunsat : ¬ L ≤ ((cleanOldTimestamps s.global_timestamps now).length : ℚ)) :
    calculateWaitTime config toolName now s =
      calculateWaitTime.calcToolPart toolName now τ []
        { s with global_timestamps := cleanOldTimestamps s.global_timestamps now } := by
  simp only [calculateWaitTime, hL, hτ]
  rw [if_neg hunsat]

/-- Claim C8 (amended): provided the global key is present, both limits are
positive, both windows are sorted and neither pruned window exceeds its
limit, `_calculate_wait_time` returns normally and its value is the LEAST
nonnegative delay `δ` after which both the global window and the tool's
window hold strictly fewer than their limits of entries strictly younger
than one second before `now + δ` — boundary entries aged exactly one second
count as expired, matching the code's `wait_time <= 0` admission test (so
the backoff is 0 also when a window is full but its oldest entry is exactly
one second old, not only when both pruned windows are strictly below their
limits). -/
theorem calculateWaitTime_least_delay (config : Config) (toolName : String)
    (now L τ : ℚ) (s : LimiterState)
    (hL : config.max_requests_per_second = some L) (hLpos : 0 < L)
    (hτ : getToolLimit config toolName = .ok τ) (hτpos : 0 < τ)
    (hsg : s.global_timestamps.Sorted (· ≤ ·))
    (hst : (dictGetD s.tool_timestamps toolName).Sorted (· ≤ ·))
    (hgle : ((cleanOldTimestamps s.global_timestamps now).length : ℚ) ≤ L)
    (htle : ((cleanOldTimestamps (dictGetD s.tool_timestamps toolName) now).length : ℚ) ≤ τ) :
    ∃ W s2, calculateWaitTime config toolName now s = (.ok W, s2) ∧
      IsLeast {δ : ℚ | 0 ≤ δ ∧ belowCap s.global_timestamps L now δ ∧
        belowCap (dictGetD s.tool_timestamps toolName) τ now δ} W := by
  by_cases hgsat : L ≤ ((cleanOldTimestamps s.global_timestamps now).length : ℚ)
  · obtain ⟨ghd, gtl, hgp⟩ :
        ∃ hd tl, cleanOldTimestamps s.global_timestamps now = hd :: tl := by
      rcases hnil : cleanOldTimestamps s.global_timestamps now with _ | ⟨a, b⟩
      · exfalso
        rw [hnil] at hgsat
        simp only [List.length_nil, Nat.cast_zero] at hgsat
        linarith
      · exact ⟨a, b, rfl⟩
    have hg0 : 0 ≤ ghd + 1 - now := by
      have h0 := not_lt.mp (cleanOld_head_not_lt hgp)
      linarith
    have hgsat2 := hgsat
    rw [hgp] at hgsat2
    have h1 := calculateWaitTime_gsat config toolName now L τ s hL hτ ghd gtl hgp hgsat2
    by_cases htsat : τ ≤
        ((cleanOldTimestamps (dictGetD s.tool_timestamps toolName) now).length : ℚ)
    · obtain ⟨thd, ttl, htp⟩ :
          ∃ hd tl, cleanOldTimestamps (dictGetD s.tool_timestamps toolName) now
            = hd :: tl := by
        rcases hnil : cleanOldTimestamps (dictGetD s.tool_timestamps toolName) now
            with _ | ⟨a, b⟩
        · exfalso
          rw [hnil] at htsat
          simp only [List.length_nil, Nat.cast_zero] at htsat
          linarith
        · exact ⟨a, b, rfl⟩
      have htsat2 := htsat
      rw [htp] at htsat2
      obtain ⟨s2, h2⟩ := calcToolPart_sat toolName now τ [ghd + 1 - now] thd ttl
        { s with global_timestamps := ghd :: gtl } htp htsat2
      refine ⟨max (ghd + 1 - now) (thd + 1 - now), s2, h1.trans h2,
        ⟨⟨le_trans hg0 (le_max_left _ _), ?_, ?_⟩, ?_⟩⟩
      · exact belowCap_mono _ _ _ (le_max_left _ _) (belowCap_at_head hgp hgle)
      · exact belowCap_mono _ _ _ (le_max_right _ _) (belowCap_at_head htp htle)
      · rintro δ ⟨hδ0, hbg, hbt⟩
        exact max_le (head_le_of_belowCap hsg hgp hgsat hδ0 hbg)
          (head_le_of_belowCap hst htp htsat hδ0 hbt)
    · obtain ⟨s2, h2⟩ := calcToolPart_unsat toolName now τ [ghd + 1 - now]
        { s with global_timestamps := ghd :: gtl } htsat
      refine ⟨ghd + 1 - now, s2, h1.trans h2, ⟨⟨hg0, belowCap_at_head hgp hgle,
        belowCap_of_unsat (not_le.mp htsat) hg0⟩, ?_⟩⟩
      rintro δ ⟨hδ0, hbg, -⟩
      exact head_le_of_belowCap hsg hgp hgsat hδ0 hbg
  · have h1 := calculateWaitTime_gunsat config toolName now L τ s hL hτ hgsat
    by_cases htsat : τ ≤
        ((cleanOldTimestamps (dictGetD s.tool_timestamps toolName) now).length : ℚ)
    · obtain ⟨thd, ttl, htp⟩ :
          ∃ hd tl, cleanOldTimestamps (dictGetD s.tool_timestamps toolName) now
            = hd :: tl := by
        rcases hnil : cleanOldTimestamps (dictGetD s.tool_timestamps toolName) now
            with _ | ⟨a, b⟩
        · exfalso
          rw [hnil] at htsat
          simp only [List.length_nil, Nat.cast_zero] at htsat
          linarith
        · exact ⟨a, b, rfl⟩
      have ht0 : 0 ≤ thd + 1 - now := by
        have h0 := not_lt.mp (cleanOld_head_not_lt htp)
        linarith
      have htsat2 := htsat
      rw [htp] at htsat2
      obtain ⟨s2, h2⟩ := calcToolPart_sat toolName now τ [] thd ttl
        { s with global_timestamps := cleanOldTimestamps s.global_timestamps now }
        htp htsat2
      refine ⟨thd + 1 - now, s2, h1.trans h2, ⟨⟨ht0,
        belowCap_of_unsat (not_le.mp hgsat) ht0, belowCap_at_head htp htle⟩, ?_⟩⟩
      rintro δ ⟨hδ0, -, hbt⟩
      exact head_le_of_belowCap hst htp htsat hδ0 hbt
    · obtain ⟨s2, h2⟩ := calcToolPart_unsat toolName now τ []
        { s with global_timestamps := cleanOldTimestamps s.global_timestamps now }
        htsat
      refine ⟨0, s2, h1.trans h2, ⟨⟨le_refl 0,
        belowCap_of_unsat (not_le.mp hgsat) (le_refl 0),
        belowCap_of_unsat (not_le.mp htsat) (le_refl 0)⟩, ?_⟩⟩
      rintro δ ⟨hδ0, -, -⟩
      exact hδ0

/-- Witness for the amended C8 theorem: with a global limit of 1, a request
for tool `x` at time 1 against windows both holding the single timestamp
1/2 gets back exactly the least delay after which both windows fall below
their caps. -/
theorem calculateWaitTime_least_delay_witness :
    ∃ W s2, calculateWaitTime cfgOne "x" 1 ⟨[1/2], [("x", [1/2])], []⟩ = (.ok W, s2) ∧
      IsLeast {δ : ℚ | 0 ≤ δ ∧ belowCap [1/2] 1 1 δ ∧
        belowCap (dictGetD [("x", [1/2])] "x") 1 1 δ} W :=
  calculateWaitTime_least_delay cfgOne "x" 1 1 1 ⟨[1/2], [("x", [1/2])], []⟩
    rfl (by norm_num) (by with_unfolding_all rfl) (by norm_num)
    (by with_unfolding_all decide) (by with_unfolding_all decide)
    (by with_unfolding_all decide) (by with_unfolding_all decide)
